import Mathlib

/-!
Shallow embedding of the data-lake-server backend
(`server_backend/app/utils.py`, `server_backend/app/main.py`,
`server_backend/app/db.py`) and proofs about it.

Strings are modelled as Lean `String` (lists of characters); the ASCII
fragments of Python's `str.isalnum`, `str.strip`, `str.upper` and `str.lower`
are used, which is faithful on all inputs appearing in the claims.
-/

/-! ## Character classes -/

/-- The characters kept unchanged by the sanitizers: `c.isalnum() or c in ("-", "_")`. -/
def allowedChar (c : Char) : Bool := c.isAlphanum || c == '-' || c == '_'

/-- `c if c.isalnum() or c in ("-", "_") else "_"` (utils.py, used for base names
and project ids). -/
def sanitizeChar (c : Char) : Char := if allowedChar c then c else '_'

/-- Python whitespace stripped by `str.strip()` (ASCII fragment). -/
def isPySpace (c : Char) : Bool :=
  c == ' ' || c == '\t' || c == '\n' || c == '\r' || c == '\x0b' || c == '\x0c'

/-! ## Python `str.strip` / `str.strip("_")` -/

/-- Strip characters satisfying `p` from both ends of a list
(Python `str.strip(chars)`): drop the strippable trailing run, then the
strippable leading run. -/
def stripEnds (p : Char → Bool) (l : List Char) : List Char :=
  List.dropWhile p ((List.dropWhile p l.reverse).reverse)

/-! ## `os.path.splitext` (posixpath) -/

/-- Scan a REVERSED character list for the last `.` of the original string,
stopping at a path separator.  `some (a, b)` means the original list is
`b.reverse ++ '.' :: a.reverse` where `a.reverse` (the part after the last dot)
contains neither `.` nor `/`. -/
def extSplitRev : List Char → Option (List Char × List Char)
  | [] => none
  | c :: rest =>
    if c = '.' then some ([], rest)
    else if c = '/' then none
    else (extSplitRev rest).map (fun ab => (c :: ab.1, ab.2))

/-- `posixpath.splitext` on character lists: split at the last `.` that comes
after the last `/`, unless every character between that `/` (or the start) and
the dot is itself a dot (the leading-dots rule: `".txt"` has no extension). -/
def splitExtChars (cs : List Char) : List Char × List Char :=
  match extSplitRev cs.reverse with
  | some (a, b) =>
    if (b.takeWhile (fun c => !(c == '/'))).any (fun c => !(c == '.')) then
      (b.reverse, '.' :: a.reverse)
    else (cs, [])
  | none => (cs, [])

/-- `os.path.splitext(filename)`. -/
def splitext (s : String) : String × String :=
  let p := splitExtChars s.data
  (String.mk p.1, String.mk p.2)

/-! ## String helpers used by `os.path.join` / `pathlib` -/

/-- Python `s.startswith(pre)`. -/
def strStartsWith (s pre : String) : Bool := pre.data.isPrefixOf s.data

/-- Python `s.endswith(suf)`. -/
def strEndsWith (s suf : String) : Bool := suf.data.isSuffixOf s.data

/-- Two-argument `os.path.join` (posixpath). -/
def pathJoin (a b : String) : String :=
  if strStartsWith b "/" then b
  else if a = "" || strEndsWith a "/" then a ++ b
  else a ++ "/" ++ b

/-- Scan a REVERSED character list for the last `.` of the original string
(`str.rfind(".")`); `some (a, b)` means the original is
`b.reverse ++ '.' :: a.reverse` with `a.reverse` dot-free. -/
def lastDotSplitRev : List Char → Option (List Char × List Char)
  | [] => none
  | c :: rest =>
    if c = '.' then some ([], rest)
    else (lastDotSplitRev rest).map (fun ab => (c :: ab.1, ab.2))

/-- `pathlib.PurePath.suffix` of a file NAME (no separators): the part from the
last dot on, but empty when the dot is the first or the last character. -/
def pathSuffix (name : String) : String :=
  match lastDotSplitRev name.data.reverse with
  | some (a, b) =>
    if a ≠ [] ∧ b ≠ [] then String.mk ('.' :: a.reverse) else ""
  | none => ""

/-! ## utils.py -/

/-- `get_file_extension(filename)` (utils.py lines 5-11):
`_, extension = os.path.splitext(filename)`; if the extension is non-empty,
return it with leading dots removed and upper-cased, else `"UNKNOWN"`. -/
def get_file_extension (filename : String) : String :=
  let ext := (splitext filename).2
  if ext ≠ "" then String.mk ((ext.data.dropWhile (fun c => c == '.')).map Char.toUpper)
  else "UNKNOWN"

/-- utils.py line 18-20: replace every base-name character that is not
alphanumeric, `-` or `_` with `_`. -/
def saneBaseOf (baseName : String) : String :=
  String.mk (baseName.data.map sanitizeChar)

/-- utils.py lines 26-36: for a non-empty extension, keep the dot and the
alphanumeric characters of `extension.lstrip(".")` (the
`extension_original.startswith(".")` conjunct is part of the comprehension in
the source); if only the dot is left, drop the extension entirely. -/
def sanitizedExtOf (extOrig : String) : String :=
  if extOrig ≠ "" then
    let e := String.mk ('.' ::
      ((extOrig.data.dropWhile (fun c => c == '.')).filter
        (fun c => c.isAlphanum && strStartsWith extOrig ".")))
    if e = "." then "" else e
  else ""

/-- `sanitize_filename(filename)` (utils.py lines 14-38).  `none` models the
branch where the sanitized base name is empty: the source then evaluates
`datetime.datetime.utc()`, an attribute that does not exist, so the call
raises `AttributeError` instead of producing the intended timestamp fallback
(the source itself carries a NOTE admitting the call is wrong). -/
def sanitizeFilenameOpt (filename : String) : Option String :=
  let be := splitext filename
  let saneBase := saneBaseOf be.1
  if saneBase = "" then
    none
  else
    some (saneBase ++ sanitizedExtOf be.2)

/-- `sanitize_project_id(project_id)` (utils.py lines 41-51). -/
def sanitize_project_id (projectId : String) : String :=
  if projectId = "" then ""
  else
    let cleaned := stripEnds (fun c => c == '_')
      (((stripEnds isPySpace projectId.data).map sanitizeChar))
    if cleaned = [] then "" else String.mk cleaned ++ "/"

/-- The same operation written from the words of the specification (§4.1):
trim whitespace, replace each disallowed character with `_`, strip leading and
trailing underscores; empty result yields an empty prefix, otherwise the
cleaned string followed by `/`. -/
def sanitizeProjectIdSpec (raw : String) : String :=
  let trimmed := stripEnds isPySpace raw.data
  let replaced := trimmed.map sanitizeChar
  let cleaned := stripEnds (fun c => c == '_') replaced
  if cleaned = [] then "" else String.mk cleaned ++ "/"


/-! ## `datetime.datetime.strptime(s, "%Y-%m-%d").date()` -/

/-- A calendar date as produced by `datetime.date`. -/
structure PyDate where
  year : Nat
  month : Nat
  day : Nat
deriving DecidableEq

/-- Python `s.split("-")` on character lists. -/
def splitDash : List Char → List (List Char)
  | [] => [[]]
  | c :: cs =>
    let r := splitDash cs
    if c = '-' then [] :: r
    else match r with
      | h :: t => (c :: h) :: t
      | [] => [[c]]

def isDigitChar (c : Char) : Bool := '0' ≤ c && c ≤ '9'

def digitsToNat (l : List Char) : Nat :=
  l.foldl (fun acc c => acc * 10 + (c.toNat - '0'.toNat)) 0

/-- Gregorian month length, with the leap-year rule used by `datetime.date`. -/
def daysInMonth (y m : Nat) : Nat :=
  if m = 2 then
    if (y % 4 = 0 ∧ y % 100 ≠ 0) ∨ y % 400 = 0 then 29 else 28
  else if m = 4 ∨ m = 6 ∨ m = 9 ∨ m = 11 then 30 else 31

/-- `datetime.datetime.strptime(str(s), "%Y-%m-%d").date()` with the
`ValueError` branch mapped to `none`: `%Y` consumes exactly four digits,
`%m` and `%d` one or two digits, the whole string must be consumed, and the
`datetime.date` constructor enforces year ≥ 1, month 1..12 and a valid day
of the month. -/
def parseDateYMD (s : String) : Option PyDate :=
  match splitDash s.data with
  | [ys, ms, ds] =>
    if ys.length = 4 ∧ ys.all isDigitChar ∧
       1 ≤ ms.length ∧ ms.length ≤ 2 ∧ ms.all isDigitChar ∧
       1 ≤ ds.length ∧ ds.length ≤ 2 ∧ ds.all isDigitChar then
      let y := digitsToNat ys
      let m := digitsToNat ms
      let d := digitsToNat ds
      if 1 ≤ y ∧ 1 ≤ m ∧ m ≤ 12 ∧ 1 ≤ d ∧ d ≤ daysInMonth y m then
        some ⟨y, m, d⟩
      else none
    else none
  | _ => none

/-- main.py lines 110-119: `date_conducted = None`; if the declared string is
truthy, parse it with the strict template and keep `None` on failure. -/
def parsedDate (declared : Option String) : Option PyDate :=
  match declared with
  | none => none
  | some s => if s = "" then none else parseDateYMD s


/-! ## PostgreSQL `ILIKE` (db.py builds patterns `%filter%`) -/

/-- One NFA step of SQL `LIKE` matching over a set of remaining-suffix states:
`%` jumps to every suffix, `_` consumes one character, and a literal character
consumes one matching character, case-insensitively (`ILIKE`). -/
def likeStep (S : List (List Char)) (pc : Char) : List (List Char) :=
  if pc = '%' then (S.map List.tails).flatten
  else if pc = '_' then S.filterMap (fun s => s.tail?)
  else S.filterMap (fun s =>
    match s with
    | [] => none
    | c :: rest => if c.toLower = pc.toLower then some rest else none)

/-- PostgreSQL `ILIKE`: does pattern `ps` match the whole string `cs`
(case-insensitively)? -/
def likeMatch (ps cs : List Char) : Bool :=
  (ps.foldl likeStep [cs]).contains []

/-- The `column ILIKE %(p)s` test with parameter `"%" + p + "%"`
(db.py lines 223-252). -/
def ilikeContains (field pat : String) : Bool :=
  likeMatch ('%' :: (pat.data ++ ['%'])) field.data


/-! ## Catalog rows (`file_index.files_metadata_catalog`) -/

/-- One row of the metadata catalog, the columns selected and inserted by
db.py.  `file_id` abstracts the UUID as a number; nullable columns are
`Option`; `upload_timestamp` is an abstract instant ordered as `Nat`. -/
structure CatalogRow where
  file_id : Nat
  project_id : Option String
  file_name : String
  file_type : Option String
  content_type : Option String
  experiment_type : Option String
  author : Option String
  date_conducted : Option PyDate
  size_bytes : Nat
  minio_bucket_name : String
  minio_object_path : String
  upload_timestamp : Nat
  custom_tags : Option String
deriving DecidableEq

/-- The optional query parameters of `search_files_in_db` (db.py lines 175-183). -/
structure SearchFilters where
  file_id : Option Nat
  project_id : Option String
  author : Option String
  file_type : Option String
  experiment_type : Option String
  tags_contain : Option String
  date_after : Option PyDate
  date_before : Option PyDate
deriving DecidableEq

def noFilters : SearchFilters := ⟨none, none, none, none, none, none, none, none⟩

/-- SQL `date` comparison `a <= b` (lexicographic on year, month, day). -/
def dateLeb (a b : PyDate) : Bool :=
  if a.year ≠ b.year then a.year < b.year
  else if a.month ≠ b.month then a.month < b.month
  else a.day ≤ b.day

/-- A nullable text column against an `ILIKE '%p%'` clause: SQL `NULL`
compares to unknown, so a `none` column never matches. -/
def optIlike (col : Option String) (pat : String) : Bool :=
  match col with
  | none => false
  | some v => ilikeContains v pat

/-- The WHERE clause built by `search_files_in_db` (db.py lines 218-255):
a clause is added only for parameters that are provided (for text parameters,
Python truthiness also treats `""` as absent); all clauses are ANDed.
`file_id` is an exact equality, text fields are `ILIKE '%p%'`, the date
bounds compare `date_conducted`. -/
def rowMatches (fl : SearchFilters) (r : CatalogRow) : Bool :=
  (match fl.file_id with
   | none => true
   | some fid => r.file_id == fid) &&
  (match fl.project_id with
   | none => true
   | some s => if s = "" then true else optIlike r.project_id s) &&
  (match fl.author with
   | none => true
   | some s => if s = "" then true else optIlike r.author s) &&
  (match fl.file_type with
   | none => true
   | some s => if s = "" then true else optIlike r.file_type s) &&
  (match fl.experiment_type with
   | none => true
   | some s => if s = "" then true else optIlike r.experiment_type s) &&
  (match fl.date_after with
   | none => true
   | some d => match r.date_conducted with
     | none => false
     | some dc => dateLeb d dc) &&
  (match fl.date_before with
   | none => true
   | some d => match r.date_conducted with
     | none => false
     | some dc => dateLeb dc d) &&
  (match fl.tags_contain with
   | none => true
   | some s => if s = "" then true else optIlike r.custom_tags s)

/-- `ORDER BY upload_timestamp DESC`: row `a` may come before row `b`. -/
def tsGe (a b : CatalogRow) : Prop := b.upload_timestamp ≤ a.upload_timestamp

instance : DecidableRel tsGe := fun a b => Nat.decLe b.upload_timestamp a.upload_timestamp

instance : IsTotal CatalogRow tsGe :=
  ⟨fun a b => (Nat.le_total b.upload_timestamp a.upload_timestamp)⟩

instance : IsTrans CatalogRow tsGe :=
  ⟨fun _ _ _ hab hbc => Nat.le_trans hbc hab⟩

/-- `search_files_in_db` (db.py lines 206-273) over a catalog state:
`WHERE` (the provided filters ANDed), `ORDER BY upload_timestamp DESC`,
`LIMIT 100`. -/
def searchFiles (fl : SearchFilters) (catalog : List CatalogRow) : List CatalogRow :=
  (List.insertionSort tsGe (catalog.filter (rowMatches fl))).take 100

/-! ## The ingestion pipeline (`process_and_store_file`, main.py lines 50-146) -/

/-- The flat metadata mapping extracted from the YAML document
(main.py lines 63-67); `user_metadata.get("research_project_id", "")`
defaults to the empty string, the other fields to absent. -/
structure UserMetadata where
  research_project_id : String
  author : Option String
  experiment_type : Option String
  date_conducted : Option String
  custom_tags : Option String
deriving DecidableEq

/-- The per-file result dictionary returned by `process_and_store_file`
(main.py lines 140-146). -/
structure IngestOutcome where
  status : String
  original_filename : String
  final_object_name : String
  file_id : Nat
  message : String
deriving DecidableEq

/-- Either the operation raised an exception to its caller, or it returned
an outcome dictionary. -/
inductive IngestResult where
  | raised (msg : String)
  | returned (o : IngestOutcome)
deriving DecidableEq

/-- The environment of one pipeline invocation: the object-store keys that
exist, the catalog rows, whether the blocking `put_object` would succeed,
whether the catalog INSERT would succeed, the fresh `uuid.uuid4()` value and
the current UTC instant. -/
structure PipelineEnv where
  store : List String
  catalog : List CatalogRow
  putOk : Bool
  dbOk : Bool
  fileId : Nat
  now : Nat
deriving DecidableEq

/-- The collision loop of main.py lines 80-97: probe the candidate key;
while it exists, increment the counter and retry with
`base(counter)extension` under the same prefix.  The loop is unbounded in the
source; `store.length + 1` probes suffice over a finite store, and `none`
marks the (unreachable-in-practice) fuel exhaustion. -/
def resolveLoop (store : List String) (fullPrefix base ext : String) :
    Nat → Nat → String → Option String
  | 0, _, _ => none
  | fuel + 1, counter, candidate =>
    if candidate ∈ store then
      resolveLoop store fullPrefix base ext fuel (counter + 1)
        (pathJoin fullPrefix (base ++ "(" ++ toString (counter + 1) ++ ")" ++ ext))
    else some candidate

/-- Unique-key resolution: `counter = 0`,
`base, ext = os.path.splitext(preferred_filename)`, starting candidate
`os.path.join(full_prefix, preferred_filename)`. -/
def resolveFinalKey (store : List String) (fullPrefix preferred : String) : Option String :=
  let be := splitext preferred
  resolveLoop store fullPrefix be.1 be.2 (store.length + 1) 0 (pathJoin fullPrefix preferred)

/-- `content_type or "application/octet-stream"` (Python `or`: `None` and
`""` both fall back). -/
def contentTypeOrDefault (ct : Option String) : String :=
  match ct with
  | none => "application/octet-stream"
  | some s => if s = "" then "application/octet-stream" else s

/-- `process_and_store_file` exactly as shipped (main.py lines 50-146).
Returns the result together with the final object-store and catalog states.
After a successful `put_object` the source calls
`store_file_metadata_in_db(..., research_project_id=research_project_id, ...)`,
but that function's parameter is named `project_id` (db.py line 60), so Python
raises `TypeError` at the call site on every ingestion: no catalog row can
ever be written and the exception propagates to the caller. -/
def process_and_store_file (env : PipelineEnv) (original_filename : String)
    (_content_type : Option String) (_file_size : Nat) (md : UserMetadata)
    (folderPrefix : String) : IngestResult × List String × List CatalogRow :=
  match sanitizeFilenameOpt original_filename with
  | none => (.raised "AttributeError: datetime.datetime.utc", env.store, env.catalog)
  | some preferred =>
    let fullPrefix := pathJoin (sanitize_project_id md.research_project_id) folderPrefix
    match resolveFinalKey env.store fullPrefix preferred with
    | none => (.raised "collision loop exhausted", env.store, env.catalog)
    | some finalKey =>
      if env.putOk then
        (.raised "TypeError: unexpected keyword argument research_project_id",
         finalKey :: env.store, env.catalog)
      else (.raised "S3Error: put_object failed", env.store, env.catalog)

/-- `process_and_store_file` with the keyword slip repaired
(`research_project_id` passed as the catalog writer's `project_id`
parameter) — the orchestration the specification describes: put the object,
derive `file_type` from the ORIGINAL name, parse the date, generate the id
and timestamp, insert the row; `store_file_metadata_in_db` catches every
exception and returns a status dictionary, so after a successful object write
the helper always returns an outcome. -/
def process_and_store_file_fixed (env : PipelineEnv) (original_filename : String)
    (content_type : Option String) (file_size : Nat) (md : UserMetadata)
    (folderPrefix : String) : IngestResult × List String × List CatalogRow :=
  match sanitizeFilenameOpt original_filename with
  | none => (.raised "AttributeError: datetime.datetime.utc", env.store, env.catalog)
  | some preferred =>
    let fullPrefix := pathJoin (sanitize_project_id md.research_project_id) folderPrefix
    match resolveFinalKey env.store fullPrefix preferred with
    | none => (.raised "collision loop exhausted", env.store, env.catalog)
    | some finalKey =>
      if env.putOk then
        let row : CatalogRow :=
          { file_id := env.fileId
            project_id := some md.research_project_id
            file_name := original_filename
            file_type := some (get_file_extension original_filename)
            content_type := some (contentTypeOrDefault content_type)
            experiment_type := md.experiment_type
            author := md.author
            date_conducted := parsedDate md.date_conducted
            size_bytes := file_size
            minio_bucket_name := "raw-data"
            minio_object_path := finalKey
            upload_timestamp := env.now
            custom_tags := md.custom_tags }
        if env.dbOk then
          (.returned ⟨"success", original_filename, finalKey, env.fileId,
            "Metadata stored successfully."⟩,
           finalKey :: env.store, row :: env.catalog)
        else
          (.returned ⟨"error", original_filename, finalKey, env.fileId,
            "Database operational error"⟩,
           finalKey :: env.store, env.catalog)
      else (.raised "S3Error: put_object failed", env.store, env.catalog)

/-! ## Folder (zip) upload fan-out (`create_upload_folder`, main.py 200-276) -/

/-- A file system entry produced by extracting the archive
(`Path(temp_dir).rglob("*")`): its basename (`filepath.name`), whether it is
a regular file, and its size. -/
structure ExtractedFile where
  name : String
  isFile : Bool
  size : Nat
deriving DecidableEq

/-- The per-entry guard of main.py lines 244-248: a regular file whose
basename does not start with `__MACOSX` and whose `pathlib` suffix is not
`.zip` is fed to the pipeline. -/
def keepFile (f : ExtractedFile) : Bool :=
  f.isFile && !(strStartsWith f.name "__MACOSX") && !(pathSuffix f.name == ".zip")

/-- The fan-out loop of main.py lines 243-259, parameterized by the per-file
ingestion function: entries that are not regular files, whose basename starts
with `__MACOSX` or whose `pathlib` suffix is `.zip` are skipped without an
ingest call; other files are ingested sequentially (each with a fresh file id
and the evolving store/catalog states) and their outcomes appended; an
exception from an ingest call aborts the whole batch (`Except.error`),
discarding the collected outcomes. -/
def uploadFolderWith
    (ingest : PipelineEnv → String → Option String → Nat → UserMetadata → String →
      IngestResult × List String × List CatalogRow)
    (putOk dbOk : Bool) (now : Nat) (md : UserMetadata) (folderName : String) :
    List ExtractedFile → Nat → List String → List CatalogRow →
    Except String (List IngestOutcome × List String × List CatalogRow)
  | [], _, store, catalog => .ok ([], store, catalog)
  | f :: fs, nextId, store, catalog =>
    if keepFile f then
      match ingest ⟨store, catalog, putOk, dbOk, nextId, now⟩ f.name none f.size md folderName with
      | (.raised e, _, _) => .error e
      | (.returned o, store', catalog') =>
        match uploadFolderWith ingest putOk dbOk now md folderName fs (nextId + 1) store' catalog' with
        | .error e => .error e
        | .ok (os, st, ct) => .ok (o :: os, st, ct)
    else uploadFolderWith ingest putOk dbOk now md folderName fs nextId store catalog

/-- The folder upload as shipped. -/
def create_upload_folder := uploadFolderWith process_and_store_file

/-- The folder upload over the slip-repaired pipeline. -/
def create_upload_folder_fixed := uploadFolderWith process_and_store_file_fixed


/-! ## Claim-level predicates (spec wording) -/

/-- A filter string with no SQL wildcard characters. -/
def wildcardFree (p : String) : Bool := p.data.all (fun c => !(c == '%') && !(c == '_'))

/-- "case-insensitive partial match": the filter occurs inside the field,
up to letter case. -/
def lowerInfix (p field : String) : Prop :=
  (p.data.map Char.toLower) <:+: (field.data.map Char.toLower)

/-- Match a wildcard-free pattern against the front of a string,
case-insensitively, returning the remainder. -/
def stripLowerPrefixFn : List Char → List Char → Option (List Char)
  | [], s => some s
  | _ :: _, [] => none
  | c :: p, d :: s => if d.toLower = c.toLower then stripLowerPrefixFn p s else none

/-! ## Helper lemmas: strings and lists -/

theorem strExt {a b : String} (h : a.data = b.data) : a = b := by
  cases a
  cases b
  cases h
  rfl

theorem strDataAppend (a b : String) : (a ++ b).data = a.data ++ b.data := rfl

theorem strAppendEmpty (s : String) : s ++ "" = s :=
  strExt (by rw [strDataAppend]; exact List.append_nil _)

theorem mkEmptyIff (l : List Char) : String.mk l = "" ↔ l = [] := by
  constructor
  · intro h
    exact congrArg String.data h
  · intro h
    rw [h]

theorem allowedChar_sanitizeChar (c : Char) : allowedChar (sanitizeChar c) = true := by
  unfold sanitizeChar
  split
  · assumption
  · decide

theorem sanitizeChar_fixed {c : Char} (h : allowedChar c = true) : sanitizeChar c = c := by
  unfold sanitizeChar
  simp [h]

theorem map_id_of_fixed {f : Char → Char} :
    ∀ l : List Char, (∀ c ∈ l, f c = c) → l.map f = l := by
  intro l
  induction l with
  | nil => intro _; rfl
  | cons c cs ih =>
    intro h
    simp only [List.map_cons]
    rw [h c (List.mem_cons_self c cs), ih (fun x hx => h x (List.mem_cons_of_mem c hx))]

/-- `.` and `/` are not kept by the sanitizer, so sanitized characters are
neither dots nor separators. -/
theorem allowed_notDotSep {c : Char} (h : allowedChar c = true) :
    (!(c == '.') && !(c == '/')) = true := by
  rcases eq_or_ne c '.' with rfl | hdot
  · exact absurd h (by decide)
  · rcases eq_or_ne c '/' with rfl | hsep
    · exact absurd h (by decide)
    · simp [hdot, hsep]

theorem takeWhile_all {p : Char → Bool} :
    ∀ l : List Char, (∀ c ∈ l, p c = true) → l.takeWhile p = l := by
  intro l
  induction l with
  | nil => intro _; rfl
  | cons c cs ih =>
    intro h
    simp only [List.takeWhile_cons, h c (List.mem_cons_self c cs), ih
      (fun x hx => h x (List.mem_cons_of_mem c hx))]
    simp

theorem dropWhile_all_not {p : Char → Bool} :
    ∀ l : List Char, (∀ c ∈ l, p c = false) → l.dropWhile p = l := by
  intro l
  induction l with
  | nil => intro _; rfl
  | cons c cs _ =>
    intro h
    simp only [List.dropWhile_cons, h c (List.mem_cons_self c cs)]
    simp

/-! ## Helper lemmas: splitext -/

theorem extSplitRev_none :
    ∀ r : List Char, (∀ c ∈ r, c ≠ '.') → extSplitRev r = none := by
  intro r
  induction r with
  | nil => intro _; rfl
  | cons c rest ih =>
    intro h
    simp only [extSplitRev, if_neg (h c (List.mem_cons_self c rest))]
    by_cases hc : c = '/'
    · rw [if_pos hc]
    · rw [if_neg hc, ih (fun x hx => h x (List.mem_cons_of_mem c hx))]
      rfl

theorem extSplitRev_found :
    ∀ T B : List Char, (∀ c ∈ T, c ≠ '.' ∧ c ≠ '/') →
      extSplitRev (T ++ '.' :: B) = some (T, B) := by
  intro T
  induction T with
  | nil =>
    intro B _
    simp [extSplitRev]
  | cons c T' ih =>
    intro B h
    have hc := h c (List.mem_cons_self c T')
    have ih' := ih B (fun x hx => h x (List.mem_cons_of_mem c hx))
    simp [extSplitRev, hc.1, hc.2, ih']

theorem splitExtChars_no_dot {l : List Char} (h : ∀ c ∈ l, c ≠ '.') :
    splitExtChars l = (l, []) := by
  have h1 : extSplitRev l.reverse = none :=
    extSplitRev_none l.reverse (fun c hc => h c (List.mem_reverse.mp hc))
  simp [splitExtChars, h1]

theorem splitExtChars_split {b t : List Char} (hb : b ≠ [])
    (hball : ∀ c ∈ b, c ≠ '.' ∧ c ≠ '/') (htall : ∀ c ∈ t, c ≠ '.' ∧ c ≠ '/') :
    splitExtChars (b ++ '.' :: t) = (b, '.' :: t) := by
  have h1 : extSplitRev (t.reverse ++ '.' :: b.reverse) = some (t.reverse, b.reverse) :=
    extSplitRev_found _ _ (fun c hc => htall c (List.mem_reverse.mp hc))
  have hrev : (b ++ '.' :: t).reverse = t.reverse ++ '.' :: b.reverse := by simp
  have htk : b.reverse.takeWhile (fun c => !(c == '/')) = b.reverse := by
    apply takeWhile_all
    intro c hc
    simp [(hball c (List.mem_reverse.mp hc)).2]
  have hany : b.reverse.any (fun c => !(c == '.')) = true := by
    rw [List.any_eq_true]
    obtain ⟨x, xs, rfl⟩ := List.exists_cons_of_ne_nil hb
    exact ⟨x, by simp, by simp [(hball x (by simp)).1]⟩
  unfold splitExtChars
  rw [hrev, h1]
  show (if ((b.reverse.takeWhile (fun c => !(c == '/'))).any (fun c => !(c == '.'))) = true
        then (b.reverse.reverse, '.' :: t.reverse.reverse)
        else (b ++ '.' :: t, [])) = (b, '.' :: t)
  rw [htk, hany]
  simp

/-! ## Helper lemmas: shapes of the sanitizer outputs -/

theorem saneBaseOf_chars (b : String) : ∀ c ∈ (saneBaseOf b).data, allowedChar c = true := by
  intro c hc
  simp only [saneBaseOf] at hc
  obtain ⟨x, _, rfl⟩ := List.mem_map.mp hc
  exact allowedChar_sanitizeChar x

theorem sanitizedExtOf_shape (e : String) :
    sanitizedExtOf e = "" ∨
    ∃ t : List Char, (sanitizedExtOf e).data = '.' :: t ∧ t ≠ [] ∧
      ∀ c ∈ t, c.isAlphanum = true := by
  unfold sanitizedExtOf
  by_cases he : e ≠ ""
  · rw [if_pos he]
    by_cases hdot : String.mk ('.' ::
        ((e.data.dropWhile (fun c => c == '.')).filter
          (fun c => c.isAlphanum && strStartsWith e "."))) = "."
    · left
      simp [hdot]
    · right
      refine ⟨(e.data.dropWhile (fun c => c == '.')).filter
        (fun c => c.isAlphanum && strStartsWith e "."), ?_, ?_, ?_⟩
      · rw [if_neg hdot]
      · intro ht
        apply hdot
        rw [ht]
      · intro c hc
        exact (Bool.and_eq_true _ _).mp (List.mem_filter.mp hc).2 |>.1
  · left
    rw [if_neg he]

theorem data_ne_nil_of_ne_empty {s : String} (h : s ≠ "") : s.data ≠ [] := by
  intro hd
  exact h (strExt hd)

/-- C4: `sanitizeFileName` is claimed pure and total, with every output
non-empty and made only of alphanumerics, `-`, `_` and at most one `.`.
The output shape holds on every input the function survives, but the function
is NOT total: on the empty base name (input `""`) the source's fallback calls
the non-existent `datetime.datetime.utc()` and raises `AttributeError`
(modelled by `none`). -/
theorem C4_sanitize_filename_total_shape :
    sanitizeFilenameOpt "" = none ∧
    ∀ s out, sanitizeFilenameOpt s = some out →
      out.data ≠ [] ∧ (∀ c ∈ out.data, allowedChar c = true ∨ c = '.') ∧
      out.data.countP (fun c => c == '.') ≤ 1 := by
  refine ⟨by decide, ?_⟩
  intro s out h
  simp only [sanitizeFilenameOpt] at h
  split at h
  · exact absurd h (by simp)
  · rename_i hbase
    obtain rfl := Option.some.inj h
    have hbd : (saneBaseOf (splitext s).1).data ≠ [] := data_ne_nil_of_ne_empty hbase
    have hchars := saneBaseOf_chars (splitext s).1
    rw [strDataAppend]
    rcases sanitizedExtOf_shape (splitext s).2 with hse | ⟨t, hse, htne, htal⟩
    · rw [hse]
      refine ⟨by simp [hbd], ?_, ?_⟩
      · intro c hc
        simp only [List.append_nil] at hc
        exact Or.inl (hchars c hc)
      · simp only [List.append_nil]
        have : ∀ c ∈ (saneBaseOf (splitext s).1).data, ¬((c == '.') = true) := by
          intro c hc hdot
          have := allowed_notDotSep (hchars c hc)
          simp only [Bool.and_eq_true, Bool.not_eq_true'] at this
          rw [this.1] at hdot
          exact Bool.false_ne_true hdot
        rw [List.countP_eq_zero.mpr this]
        decide
    · rw [hse]
      refine ⟨by simp, ?_, ?_⟩
      · intro c hc
        rcases List.mem_append.mp hc with hcb | hce
        · exact Or.inl (hchars c hcb)
        · rcases List.mem_cons.mp hce with rfl | hct
          · exact Or.inr rfl
          · refine Or.inl ?_
            unfold allowedChar
            rw [htal c hct]
            rfl
      · rw [List.countP_append]
        have hb0 : (saneBaseOf (splitext s).1).data.countP (fun c => c == '.') = 0 := by
          apply List.countP_eq_zero.mpr
          intro c hc hdot
          have := allowed_notDotSep (hchars c hc)
          simp only [Bool.and_eq_true, Bool.not_eq_true'] at this
          rw [this.1] at hdot
          exact Bool.false_ne_true hdot
        have ht0 : t.countP (fun c => c == '.') = 0 := by
          apply List.countP_eq_zero.mpr
          intro c hc hdot
          have hal : allowedChar c = true := by
            unfold allowedChar
            rw [htal c hc]
            rfl
          have := allowed_notDotSep hal
          simp only [Bool.and_eq_true, Bool.not_eq_true'] at this
          rw [this.1] at hdot
          exact Bool.false_ne_true hdot
        rw [hb0, List.countP_cons, ht0]
        simp

/-- Witness for C4 at a concrete input that survives sanitization. -/
theorem C4_witness :
    sanitizeFilenameOpt "a b!.t xt" = some "a_b_.txt" ∧
    (("a_b_.txt" : String).data ≠ [] ∧
      (∀ c ∈ ("a_b_.txt" : String).data, allowedChar c = true ∨ c = '.') ∧
      ("a_b_.txt" : String).data.countP (fun c => c == '.') ≤ 1) :=
  ⟨by decide, C4_sanitize_filename_total_shape.2 "a b!.t xt" "a_b_.txt" (by decide)⟩

/-- C7: `file_type` is the uppercased extension of the original name, with the
sentinel `UNKNOWN` when the name has no extension. -/
theorem C7_get_file_extension :
    get_file_extension "notes.MATLAB.mat" = "MAT" ∧
    get_file_extension "README" = "UNKNOWN" ∧
    ∀ f : String, (splitext f).2 = "" → get_file_extension f = "UNKNOWN" := by
  refine ⟨by decide, by decide, ?_⟩
  intro f h
  simp [get_file_extension, h]

/-- Witness for C7 at a concrete extensionless input. -/
theorem C7_witness :
    (splitext "README").2 = "" ∧ get_file_extension "README" = "UNKNOWN" :=
  ⟨by decide, C7_get_file_extension.2.2 "README" (by decide)⟩

/-! ## Helper lemmas: stripping -/

theorem dropWhile_head_false {p : Char → Bool} :
    ∀ {l : List Char} {x : Char} {xs : List Char},
      l.dropWhile p = x :: xs → p x = false := by
  intro l
  induction l with
  | nil =>
    intro x xs h
    cases h
  | cons c cs ih =>
    intro x xs h
    rw [List.dropWhile_cons] at h
    by_cases hc : p c = true
    · rw [if_pos hc] at h
      exact ih h
    · rw [if_neg hc] at h
      cases h
      exact Bool.not_eq_true _ |>.mp hc

theorem dropWhile_idem {p : Char → Bool} (l : List Char) :
    (l.dropWhile p).dropWhile p = l.dropWhile p := by
  cases hd : l.dropWhile p with
  | nil => rfl
  | cons x xs =>
    rw [List.dropWhile_cons, dropWhile_head_false hd]
    simp

theorem stripEnds_subset {p : Char → Bool} {l : List Char} :
    ∀ c ∈ stripEnds p l, c ∈ l := by
  intro c hc
  unfold stripEnds at hc
  have h1 : c ∈ ((l.reverse.dropWhile p).reverse) := (List.dropWhile_suffix p).subset hc
  have h2 : c ∈ l.reverse.dropWhile p := List.mem_reverse.mp h1
  exact List.mem_reverse.mp ((List.dropWhile_suffix p).subset h2)

theorem stripEnds_no_strip {p : Char → Bool} {l : List Char}
    (h : ∀ c ∈ l, p c = false) : stripEnds p l = l := by
  unfold stripEnds
  rw [dropWhile_all_not l.reverse (fun c hc => h c (List.mem_reverse.mp hc)),
    List.reverse_reverse, dropWhile_all_not l h]

/-- Appending one strippable character to an already-stripped list and
stripping again recovers the stripped list. -/
theorem stripEnds_snoc_strippable {p : Char → Bool} {X : List Char} {ch : Char}
    (hch : p ch = true) : stripEnds p (stripEnds p X ++ [ch]) = stripEnds p X := by
  set l := stripEnds p X with hl
  have hZ : l = List.dropWhile p ((List.dropWhile p X.reverse).reverse) := by
    rw [hl]
    rfl
  have hB : List.dropWhile p l = l := by
    rw [hZ]
    exact dropWhile_idem _
  have hA : List.dropWhile p l.reverse = l.reverse := by
    cases hcase : l.reverse with
    | nil => rfl
    | cons y ys =>
      have hsuffix : l <:+ (List.dropWhile p X.reverse).reverse := by
        rw [hZ]
        exact List.dropWhile_suffix p
      have hpre : l.reverse <+: List.dropWhile p X.reverse := by
        have := List.reverse_prefix.mpr hsuffix
        rwa [List.reverse_reverse] at this
      obtain ⟨r, hr⟩ := hpre
      rw [hcase] at hr
      have hy : p y = false := by
        have hr2 : List.dropWhile p X.reverse = y :: (ys ++ r) := by
          rw [← hr]
          rfl
        exact dropWhile_head_false hr2
      rw [List.dropWhile_cons, hy]
      simp
  have h2 : (l ++ [ch]).reverse = ch :: l.reverse := by simp
  have h3 : List.dropWhile p (ch :: l.reverse) = List.dropWhile p l.reverse := by
    rw [List.dropWhile_cons, hch]
    simp
  unfold stripEnds
  rw [h2, h3, hA, List.reverse_reverse, hB]

theorem allowed_ne_dot {c : Char} (h : allowedChar c = true) : c ≠ '.' := by
  intro hc
  subst hc
  exact absurd h (by decide)

theorem allowed_ne_sep {c : Char} (h : allowedChar c = true) : c ≠ '/' := by
  intro hc
  subst hc
  exact absurd h (by decide)

theorem allowed_not_space {c : Char} (h : allowedChar c = true) : isPySpace c = false := by
  rcases eq_or_ne c ' ' with rfl | h1
  · exact absurd h (by decide)
  rcases eq_or_ne c '\t' with rfl | h2
  · exact absurd h (by decide)
  rcases eq_or_ne c '\n' with rfl | h3
  · exact absurd h (by decide)
  rcases eq_or_ne c '\r' with rfl | h4
  · exact absurd h (by decide)
  rcases eq_or_ne c '\x0b' with rfl | h5
  · exact absurd h (by decide)
  rcases eq_or_ne c '\x0c' with rfl | h6
  · exact absurd h (by decide)
  simp [isPySpace, h1, h2, h3, h4, h5, h6]

/-- C5: `sanitizeProjectId` trims whitespace, replaces disallowed characters
with `_`, strips leading/trailing underscores and appends `/`, with an empty
prefix for empty/all-whitespace/all-disallowed inputs — proved as a
refinement against the spec-worded definition, plus the four examples. -/
theorem C5_sanitize_project_id :
    (∀ s : String, sanitize_project_id s = sanitizeProjectIdSpec s) ∧
    sanitize_project_id "" = "" ∧ sanitize_project_id "   " = "" ∧
    sanitize_project_id "!!!" = "" ∧ sanitize_project_id " My Proj " = "My_Proj/" := by
  refine ⟨?_, by decide, by decide, by decide, by decide⟩
  intro s
  by_cases h : s = ""
  · subst h
    decide
  · simp only [sanitize_project_id, sanitizeProjectIdSpec, if_neg h]

/-! ## Helper lemmas: idempotence of the sanitizers -/

theorem saneBaseOf_of_allowed {x : String} (h : ∀ c ∈ x.data, allowedChar c = true) :
    saneBaseOf x = x := by
  unfold saneBaseOf
  rw [map_id_of_fixed _ (fun c hc => sanitizeChar_fixed (h c hc))]

theorem sanitize_project_id_shape (s : String) :
    sanitize_project_id s = "" ∨
    ∃ l : List Char, sanitize_project_id s = String.mk l ++ "/" ∧ l ≠ [] ∧
      l = stripEnds (fun c => c == '_') ((stripEnds isPySpace s.data).map sanitizeChar) ∧
      ∀ c ∈ l, allowedChar c = true := by
  by_cases h : s = ""
  · left
    rw [h]
    decide
  · simp only [sanitize_project_id, if_neg h]
    by_cases hc : stripEnds (fun c => c == '_')
        ((stripEnds isPySpace s.data).map sanitizeChar) = []
    · left
      rw [if_pos hc]
    · right
      refine ⟨_, ?_, hc, rfl, ?_⟩
      · rw [if_neg hc]
      · intro c hcm
        have hmem := stripEnds_subset c hcm
        obtain ⟨x, _, rfl⟩ := List.mem_map.mp hmem
        exact allowedChar_sanitizeChar x

theorem project_id_idem (s : String) :
    sanitize_project_id (sanitize_project_id s) = sanitize_project_id s := by
  rcases sanitize_project_id_shape s with h0 | ⟨l, hval, hne, hdef, hall⟩
  · rw [h0]
    decide
  · rw [hval]
    have hdata : (String.mk l ++ "/").data = l ++ ['/'] := rfl
    have hne' : String.mk l ++ "/" ≠ "" := by
      intro hh
      have hd := congrArg String.data hh
      rw [hdata] at hd
      simp at hd
    simp only [sanitize_project_id, if_neg hne']
    have hstrip1 : stripEnds isPySpace (String.mk l ++ "/").data = l ++ ['/'] := by
      rw [hdata]
      apply stripEnds_no_strip
      intro c hcm
      rcases List.mem_append.mp hcm with hcl | hcr
      · exact allowed_not_space (hall c hcl)
      · have := List.mem_singleton.mp hcr
        subst this
        decide
    have hmap : (l ++ ['/']).map sanitizeChar = l ++ ['_'] := by
      rw [List.map_append, map_id_of_fixed l (fun c hc => sanitizeChar_fixed (hall c hc))]
      rfl
    have hstrip2 : stripEnds (fun c => c == '_') (l ++ ['_']) = l := by
      rw [hdef]
      exact stripEnds_snoc_strippable (by decide)
    rw [hstrip1, hmap, hstrip2, if_neg hne]

theorem filename_idem (s out : String) (h : sanitizeFilenameOpt s = some out) :
    sanitizeFilenameOpt out = some out := by
  simp only [sanitizeFilenameOpt] at h
  split at h
  · exact absurd h (by simp)
  · rename_i hbase
    obtain rfl := Option.some.inj h
    have hchars := saneBaseOf_chars (splitext s).1
    have hbd : (saneBaseOf (splitext s).1).data ≠ [] := data_ne_nil_of_ne_empty hbase
    rcases sanitizedExtOf_shape (splitext s).2 with hse | ⟨t, hse, htne, htal⟩
    · rw [hse, strAppendEmpty]
      set sb := saneBaseOf (splitext s).1 with hsbdef
      have hsplit : splitExtChars sb.data = (sb.data, []) :=
        splitExtChars_no_dot (fun c hc => allowed_ne_dot (hchars c hc))
      have hsx : splitext sb = (sb, "") := by
        simp only [splitext, hsplit]
      simp only [sanitizeFilenameOpt, hsx]
      have hfix : saneBaseOf sb = sb := saneBaseOf_of_allowed hchars
      rw [hfix, if_neg hbase]
      rw [show sanitizedExtOf "" = "" from rfl, strAppendEmpty]
    · set sb := saneBaseOf (splitext s).1 with hsbdef
      set se := sanitizedExtOf (splitext s).2 with hsedef
      have hout : (sb ++ se).data = sb.data ++ '.' :: t := by
        rw [strDataAppend, hse]
      have htal' : ∀ c ∈ t, allowedChar c = true := by
        intro c hc
        unfold allowedChar
        rw [htal c hc]
        rfl
      have hsplit : splitExtChars (sb.data ++ '.' :: t) = (sb.data, '.' :: t) :=
        splitExtChars_split hbd
          (fun c hc => ⟨allowed_ne_dot (hchars c hc), allowed_ne_sep (hchars c hc)⟩)
          (fun c hc => ⟨allowed_ne_dot (htal' c hc), allowed_ne_sep (htal' c hc)⟩)
      have hsx : splitext (sb ++ se) = (sb, String.mk ('.' :: t)) := by
        simp only [splitext, hout, hsplit]
      simp only [sanitizeFilenameOpt, hsx]
      have hfix : saneBaseOf sb = sb := saneBaseOf_of_allowed hchars
      rw [hfix, if_neg hbase]
      have hne2 : String.mk ('.' :: t) ≠ "" := by
        intro hh
        exact absurd (congrArg String.data hh) (by simp)
      have hsane : sanitizedExtOf (String.mk ('.' :: t)) = String.mk ('.' :: t) := by
        simp only [sanitizedExtOf, if_pos hne2]
        have hdw : ('.' :: t).dropWhile (fun c => c == '.') = t := by
          cases t with
          | nil => simp [List.dropWhile_cons]
          | cons x xs =>
            have hx : (x == '.') = false := by
              have := allowed_ne_dot (htal' x (List.mem_cons_self x xs))
              simp [this]
            simp [List.dropWhile_cons, hx]
        have hsw : strStartsWith (String.mk ('.' :: t)) "." = true := by
          simp [strStartsWith, List.isPrefixOf]
        have hfil : t.filter
            (fun c => c.isAlphanum && strStartsWith (String.mk ('.' :: t)) ".") = t := by
          apply List.filter_eq_self.mpr
          intro c hc
          rw [htal c hc, hsw]
          rfl
        rw [hdw, hfil]
        have hdot : String.mk ('.' :: t) ≠ "." := by
          intro hh
          have hd := congrArg String.data hh
          simp at hd
          exact htne hd
        rw [if_neg hdot]
      rw [hsane]
      have hfin : String.mk ('.' :: t) = se := strExt hse.symm
      rw [hfin]

/-- C6: sanitization is idempotent: re-sanitizing any name the sanitizer
survives returns it unchanged, and re-sanitizing a sanitized project id
(trailing slash included) returns it unchanged. -/
theorem C6_sanitization_idempotent :
    (∀ s out, sanitizeFilenameOpt s = some out → sanitizeFilenameOpt out = some out) ∧
    (∀ s, sanitize_project_id (sanitize_project_id s) = sanitize_project_id s) :=
  ⟨filename_idem, project_id_idem⟩

/-- Witness for C6 at a concrete input. -/
theorem C6_witness :
    sanitizeFilenameOpt "a b!.t xt" = some "a_b_.txt" ∧
    sanitizeFilenameOpt "a_b_.txt" = some "a_b_.txt" :=
  ⟨by decide, C6_sanitization_idempotent.1 "a b!.t xt" "a_b_.txt" (by decide)⟩

/-! ## Claim C1: unique-key resolution -/

theorem resolveLoop_step (store : List String) (fp b e : String) (fuel counter : Nat)
    (candidate : String) (h : candidate ∈ store) :
    resolveLoop store fp b e (fuel + 1) counter candidate =
      resolveLoop store fp b e fuel (counter + 1)
        (pathJoin fp (b ++ "(" ++ toString (counter + 1) ++ ")" ++ e)) := by
  simp [resolveLoop, h]

theorem resolveLoop_done (store : List String) (fp b e : String) (fuel counter : Nat)
    (candidate : String) (h : candidate ∉ store) :
    resolveLoop store fp b e (fuel + 1) counter candidate = some candidate := by
  simp [resolveLoop, h]

/-- C1 (amended): the pipeline probes the desired key first and returns it
when absent; when `"a.txt"` exists and `"a(1).txt"` does not, resolving
`"a.txt"` yields `"a(1).txt"`; when `"a.txt"` and `"a(1).txt"` both exist AND
`"a(2).txt"` does not, it yields `"a(2).txt"`. -/
theorem C1_key_resolution_amended (store : List String) :
    (∀ fp pref : String, pathJoin fp pref ∉ store →
      resolveFinalKey store fp pref = some (pathJoin fp pref)) ∧
    ("a.txt" ∈ store → "a(1).txt" ∉ store →
      resolveFinalKey store "" "a.txt" = some "a(1).txt") ∧
    ("a.txt" ∈ store → "a(1).txt" ∈ store → "a(2).txt" ∉ store →
      resolveFinalKey store "" "a.txt" = some "a(2).txt") := by
  refine ⟨?_, ?_, ?_⟩
  · intro fp pref habs
    unfold resolveFinalKey
    exact resolveLoop_done store fp _ _ store.length 0 _ habs
  · intro h1 h2
    obtain ⟨m, hm⟩ : ∃ m, store.length = m + 1 :=
      ⟨store.length - 1,
        (Nat.succ_pred_eq_of_pos (List.length_pos.mpr (List.ne_nil_of_mem h1))).symm⟩
    show resolveLoop store "" "a" ".txt" (store.length + 1) 0 "a.txt" = some "a(1).txt"
    rw [hm]
    rw [resolveLoop_step store "" "a" ".txt" (m + 1) 0 "a.txt" h1]
    rw [show pathJoin "" ("a" ++ "(" ++ toString (0 + 1) ++ ")" ++ ".txt") = "a(1).txt"
      from rfl]
    exact resolveLoop_done store "" "a" ".txt" m 1 "a(1).txt" h2
  · intro h1 h2 h3
    have hlen : 2 ≤ store.length := by
      have he : "a(1).txt" ∈ store.erase "a.txt" :=
        (List.mem_erase_of_ne (by decide)).mpr h2
      have h1p : 1 ≤ (store.erase "a.txt").length :=
        List.length_pos.mpr (List.ne_nil_of_mem he)
      have := List.length_erase_of_mem h1
      omega
    obtain ⟨m, hm⟩ : ∃ m, store.length = m + 2 := ⟨store.length - 2, by omega⟩
    show resolveLoop store "" "a" ".txt" (store.length + 1) 0 "a.txt" = some "a(2).txt"
    rw [hm]
    rw [resolveLoop_step store "" "a" ".txt" (m + 2) 0 "a.txt" h1]
    rw [show pathJoin "" ("a" ++ "(" ++ toString (0 + 1) ++ ")" ++ ".txt") = "a(1).txt"
      from rfl]
    rw [resolveLoop_step store "" "a" ".txt" (m + 1) 1 "a(1).txt" h2]
    rw [show pathJoin "" ("a" ++ "(" ++ toString (1 + 1) ++ ")" ++ ".txt") = "a(2).txt"
      from rfl]
    exact resolveLoop_done store "" "a" ".txt" m 2 "a(2).txt" h3

/-- C1 counterexample to the claim as stated: in a store where `"a.txt"` and
`"a(1).txt"` both exist but `"a(2).txt"` also exists, resolution yields
`"a(3).txt"`, not `"a(2).txt"`. -/
theorem C1_counterexample :
    "a.txt" ∈ ["a.txt", "a(1).txt", "a(2).txt"] ∧
    "a(1).txt" ∈ ["a.txt", "a(1).txt", "a(2).txt"] ∧
    resolveFinalKey ["a.txt", "a(1).txt", "a(2).txt"] "" "a.txt" = some "a(3).txt" ∧
    ("a(3).txt" : String) ≠ "a(2).txt" := by
  refine ⟨by decide, by decide, by decide, by decide⟩

/-- Witness for C1 at concrete stores. -/
theorem C1_witness :
    resolveFinalKey ["a.txt"] "" "a.txt" = some "a(1).txt" ∧
    resolveFinalKey ["a.txt", "a(1).txt"] "" "a.txt" = some "a(2).txt" :=
  ⟨(C1_key_resolution_amended ["a.txt"]).2.1 (by decide) (by decide),
   (C1_key_resolution_amended ["a.txt", "a(1).txt"]).2.2 (by decide) (by decide) (by decide)⟩

/-! ## Claim C9: the ILIKE pattern `%p%` vs case-insensitive substring -/

theorem nil_mem_tails (t : List Char) : [] ∈ List.tails t := by
  induction t with
  | nil => simp
  | cons a as ih => simp [ih]

theorem likeStep_pct (S : List (List Char)) :
    likeStep S '%' = (S.map List.tails).flatten := by
  simp [likeStep]

theorem likeStep_lit {c : Char} (hc1 : c ≠ '%') (hc2 : c ≠ '_') (S : List (List Char)) :
    likeStep S c = S.filterMap (fun s =>
      match s with
      | [] => none
      | d :: rest => if d.toLower = c.toLower then some rest else none) := by
  simp [likeStep, hc1, hc2]

theorem bind_matchChar (c : Char) (p' : List Char) (s : List Char) :
    (Option.bind (match s with
      | [] => none
      | d :: rest => if d.toLower = c.toLower then some rest else none)
        (stripLowerPrefixFn p')) = stripLowerPrefixFn (c :: p') s := by
  cases s with
  | nil => rfl
  | cons d rest =>
    by_cases h : d.toLower = c.toLower
    · simp [h, stripLowerPrefixFn]
    · simp [h, stripLowerPrefixFn]

theorem foldl_literals (p : List Char) (hw : ∀ c ∈ p, c ≠ '%' ∧ c ≠ '_') :
    ∀ S : List (List Char), p.foldl likeStep S = S.filterMap (stripLowerPrefixFn p) := by
  induction p with
  | nil =>
    intro S
    have hid : stripLowerPrefixFn ([] : List Char) = some := funext fun s => rfl
    rw [List.foldl_nil, hid, List.filterMap_some]
  | cons c p' ih =>
    intro S
    have hc := hw c (List.mem_cons_self c p')
    rw [List.foldl_cons, likeStep_lit hc.1 hc.2,
      ih (fun x hx => hw x (List.mem_cons_of_mem c hx)), List.filterMap_filterMap]
    exact congrArg (fun f => S.filterMap f) (funext fun s => bind_matchChar c p' s)

theorem stripLowerPrefix_isSome_iff :
    ∀ p s : List Char,
      (∃ r, stripLowerPrefixFn p s = some r) ↔
        (p.map Char.toLower) <+: (s.map Char.toLower) := by
  intro p
  induction p with
  | nil =>
    intro s
    simp [stripLowerPrefixFn]
  | cons c p' ih =>
    intro s
    cases s with
    | nil => simp [stripLowerPrefixFn]
    | cons d s' =>
      simp only [stripLowerPrefixFn, List.map_cons, List.cons_prefix_cons]
      by_cases h : d.toLower = c.toLower
      · simp [h, ih s']
      · have h' : ¬(c.toLower = d.toLower) := fun hh => h hh.symm
        simp [h, h']

/-- For wildcard-free filters, the `ILIKE '%p%'` test is exactly
case-insensitive substring containment. -/
theorem ilike_wildcardFree_iff (field pat : String) (hw : wildcardFree pat = true) :
    ilikeContains field pat = true ↔ lowerInfix pat field := by
  have hwf : ∀ c ∈ pat.data, c ≠ '%' ∧ c ≠ '_' := by
    intro c hc
    have hb := List.all_eq_true.mp hw c hc
    simp only [Bool.and_eq_true, Bool.not_eq_true'] at hb
    constructor
    · intro he
      rw [he] at hb
      exact absurd hb.1 (by decide)
    · intro he
      rw [he] at hb
      exact absurd hb.2 (by decide)
  unfold ilikeContains likeMatch
  rw [List.foldl_cons, likeStep_pct]
  rw [show (([field.data].map List.tails).flatten) = List.tails field.data by simp]
  rw [List.foldl_append, foldl_literals pat.data hwf]
  rw [show List.foldl likeStep
      ((List.tails field.data).filterMap (stripLowerPrefixFn pat.data)) ['%'] =
      likeStep ((List.tails field.data).filterMap (stripLowerPrefixFn pat.data)) '%'
    from rfl]
  rw [likeStep_pct]
  have hcm : ((((List.tails field.data).filterMap
        (stripLowerPrefixFn pat.data)).map List.tails).flatten.contains
          ([] : List Char) = true) ↔
      ([] : List Char) ∈ (((List.tails field.data).filterMap
        (stripLowerPrefixFn pat.data)).map List.tails).flatten :=
    List.elem_iff
  rw [hcm, List.mem_flatten]
  constructor
  · rintro ⟨l, hl, -⟩
    obtain ⟨t, ht, rfl⟩ := List.mem_map.mp hl
    obtain ⟨s, hs, hstrip⟩ := List.mem_filterMap.mp ht
    have hsfx : s <:+ field.data := (List.mem_tails s field.data).mp hs
    have hpre : (pat.data.map Char.toLower) <+: (s.map Char.toLower) :=
      (stripLowerPrefix_isSome_iff pat.data s).mp ⟨t, hstrip⟩
    obtain ⟨u, hu⟩ := hsfx
    obtain ⟨v, hv⟩ := hpre
    exact ⟨u.map Char.toLower, v, by
      rw [← hu, List.map_append, ← hv, List.append_assoc]⟩
  · rintro ⟨u, v, huv⟩
    have hsfx : field.data.drop u.length <:+ field.data := List.drop_suffix _ _
    have hpre : (pat.data.map Char.toLower) <+:
        ((field.data.drop u.length).map Char.toLower) := by
      refine ⟨v, ?_⟩
      rw [List.map_drop, ← huv, List.append_assoc, List.drop_left]
    obtain ⟨r, hr⟩ := (stripLowerPrefix_isSome_iff pat.data _).mpr hpre
    refine ⟨List.tails r, ?_, nil_mem_tails r⟩
    apply List.mem_map.mpr
    refine ⟨r, ?_, rfl⟩
    apply List.mem_filterMap.mpr
    exact ⟨field.data.drop u.length, (List.mem_tails _ _).mpr hsfx, hr⟩

theorem optIlike_spec {col : Option String} {s : String}
    (hw : wildcardFree s = true) (h : optIlike col s = true) :
    ∃ a, col = some a ∧ lowerInfix s a := by
  cases col with
  | none => exact absurd h (by simp [optIlike])
  | some a => exact ⟨a, rfl, (ilike_wildcardFree_iff a s hw).mp h⟩

/-- C9: catalog search ANDs exactly the provided filters (an all-absent
filter set returns the whole catalog, newest first, capped), returns only
catalog rows satisfying every provided filter, matches `file_id` exactly and
text fields case-insensitively and partially (for wildcard-free filter
strings, `ILIKE '%p%'` is exactly case-insensitive substring containment),
and returns rows ordered newest first, capped at 100. -/
theorem C9_search_semantics (fl : SearchFilters) (catalog : List CatalogRow) :
    (searchFiles fl catalog).length ≤ 100 ∧
    List.Sorted tsGe (searchFiles fl catalog) ∧
    searchFiles noFilters catalog = (List.insertionSort tsGe catalog).take 100 ∧
    (∀ r ∈ searchFiles fl catalog, r ∈ catalog ∧ rowMatches fl r = true) ∧
    (∀ fid, fl.file_id = some fid → ∀ r ∈ searchFiles fl catalog, r.file_id = fid) ∧
    (∀ s : String, wildcardFree s = true → s ≠ "" →
      ∀ r ∈ searchFiles fl catalog,
        (fl.author = some s → ∃ a, r.author = some a ∧ lowerInfix s a) ∧
        (fl.project_id = some s → ∃ a, r.project_id = some a ∧ lowerInfix s a) ∧
        (fl.file_type = some s → ∃ a, r.file_type = some a ∧ lowerInfix s a) ∧
        (fl.experiment_type = some s → ∃ a, r.experiment_type = some a ∧ lowerInfix s a) ∧
        (fl.tags_contain = some s → ∃ a, r.custom_tags = some a ∧ lowerInfix s a)) := by
  have hmem : ∀ r ∈ searchFiles fl catalog, r ∈ catalog ∧ rowMatches fl r = true := by
    intro r hr
    have h1 : r ∈ List.insertionSort tsGe (catalog.filter (rowMatches fl)) :=
      List.take_subset 100 _ hr
    have h2 : r ∈ catalog.filter (rowMatches fl) :=
      (List.perm_insertionSort tsGe _).mem_iff.mp h1
    exact ⟨(List.mem_filter.mp h2).1, (List.mem_filter.mp h2).2⟩
  refine ⟨?_, ?_, ?_, hmem, ?_, ?_⟩
  · unfold searchFiles
    rw [List.length_take]
    exact Nat.min_le_left _ _
  · unfold searchFiles
    exact List.Pairwise.sublist (List.take_sublist 100 _) (List.sorted_insertionSort tsGe _)
  · unfold searchFiles
    have hf : catalog.filter (rowMatches noFilters) = catalog :=
      List.filter_eq_self.mpr (fun a _ => rfl)
    rw [hf]
  · intro fid hfid r hr
    have hm := (hmem r hr).2
    simp only [rowMatches, hfid, Bool.and_eq_true, beq_iff_eq] at hm
    exact hm.1.1.1.1.1.1.1
  · intro s hws hs r hr
    have hm := (hmem r hr).2
    simp only [rowMatches, Bool.and_eq_true] at hm
    obtain ⟨⟨⟨⟨⟨⟨⟨hfid, hproj⟩, hauth⟩, hft⟩, hexp⟩, hda⟩, hdb⟩, htags⟩ := hm
    refine ⟨?_, ?_, ?_, ?_, ?_⟩
    · intro ha
      simp only [ha] at hauth
      rw [if_neg hs] at hauth
      exact optIlike_spec hws hauth
    · intro ha
      simp only [ha] at hproj
      rw [if_neg hs] at hproj
      exact optIlike_spec hws hproj
    · intro ha
      simp only [ha] at hft
      rw [if_neg hs] at hft
      exact optIlike_spec hws hft
    · intro ha
      simp only [ha] at hexp
      rw [if_neg hs] at hexp
      exact optIlike_spec hws hexp
    · intro ha
      simp only [ha] at htags
      rw [if_neg hs] at htags
      exact optIlike_spec hws htags

/-- Witness for C9 at a concrete catalog and filter set. -/
theorem C9_witness :
    (searchFiles ⟨none, none, some "li", none, none, none, none, none⟩
        [⟨7, none, "r", none, none, none, some "Lin", none, 10, "b", "k", 5, none⟩]).length ≤ 100 ∧
    ((⟨7, none, "r", none, none, none, some "Lin", none, 10, "b", "k", 5, none⟩ : CatalogRow) ∈
        [(⟨7, none, "r", none, none, none, some "Lin", none, 10, "b", "k", 5, none⟩ : CatalogRow)] ∧
      rowMatches ⟨none, none, some "li", none, none, none, none, none⟩
        ⟨7, none, "r", none, none, none, some "Lin", none, 10, "b", "k", 5, none⟩ = true) :=
  ⟨(C9_search_semantics ⟨none, none, some "li", none, none, none, none, none⟩
      [⟨7, none, "r", none, none, none, some "Lin", none, 10, "b", "k", 5, none⟩]).1,
   (C9_search_semantics ⟨none, none, some "li", none, none, none, none, none⟩
      [⟨7, none, "r", none, none, none, some "Lin", none, 10, "b", "k", 5, none⟩]).2.2.2.1
      ⟨7, none, "r", none, none, none, some "Lin", none, 10, "b", "k", 5, none⟩ (by decide)⟩

/-! ## Claims C2, C3: failure ordering of the ingestion pipeline -/

/-- Case analysis of the repaired pipeline: either the catalog is left
untouched, or the run succeeded and the single new row references the newly
written object key. -/
theorem process_fixed_cases (env : PipelineEnv) (fn : String) (ct : Option String)
    (sz : Nat) (md : UserMetadata) (fp : String) :
    (process_and_store_file_fixed env fn ct sz md fp).2.2 = env.catalog ∨
    ∃ fk row, process_and_store_file_fixed env fn ct sz md fp =
      (.returned ⟨"success", fn, fk, env.fileId, "Metadata stored successfully."⟩,
        fk :: env.store, row :: env.catalog) ∧ row.minio_object_path = fk := by
  simp only [process_and_store_file_fixed]
  cases sanitizeFilenameOpt fn with
  | none => left; rfl
  | some preferred =>
    dsimp only
    cases resolveFinalKey env.store
        (pathJoin (sanitize_project_id md.research_project_id) fp) preferred with
    | none => left; rfl
    | some fk =>
      dsimp only
      cases hput : env.putOk with
      | false => left; simp [hput]
      | true =>
        cases hdb : env.dbOk with
        | false => left; simp [hput, hdb]
        | true =>
          right
          refine ⟨fk, ⟨env.fileId, some md.research_project_id, fn,
            some (get_file_extension fn), some (contentTypeOrDefault ct),
            md.experiment_type, md.author, parsedDate md.date_conducted, sz,
            "raw-data", fk, env.now, md.custom_tags⟩, ?_, rfl⟩
          simp [hput, hdb]

/-- C2: within one ingestion the object write precedes the catalog write;
an object-write failure aborts with the error surfaced to the caller and
leaves the catalog (and store) unchanged — in the pipeline as shipped and in
the slip-repaired pipeline alike; and in the repaired pipeline every catalog
row that was not already present references an object present in the
object store after the call. -/
theorem C2_object_write_precedes_catalog :
    (∀ (env : PipelineEnv) (fn : String) (ct : Option String) (sz : Nat)
        (md : UserMetadata) (fp : String), env.putOk = false →
      ∃ m, process_and_store_file env fn ct sz md fp =
        (.raised m, env.store, env.catalog)) ∧
    (∀ (env : PipelineEnv) (fn : String) (ct : Option String) (sz : Nat)
        (md : UserMetadata) (fp : String), env.putOk = false →
      ∃ m, process_and_store_file_fixed env fn ct sz md fp =
        (.raised m, env.store, env.catalog)) ∧
    (∀ (env : PipelineEnv) (fn : String) (ct : Option String) (sz : Nat)
        (md : UserMetadata) (fp : String),
      ∀ row ∈ (process_and_store_file_fixed env fn ct sz md fp).2.2,
        row ∈ env.catalog ∨
          row.minio_object_path ∈ (process_and_store_file_fixed env fn ct sz md fp).2.1) := by
  refine ⟨?_, ?_, ?_⟩
  · intro env fn ct sz md fp hput
    simp only [process_and_store_file]
    cases sanitizeFilenameOpt fn with
    | none => exact ⟨_, rfl⟩
    | some preferred =>
      dsimp only
      cases resolveFinalKey env.store
          (pathJoin (sanitize_project_id md.research_project_id) fp) preferred with
      | none => exact ⟨_, rfl⟩
      | some fk =>
        dsimp only
        refine ⟨"S3Error: put_object failed", ?_⟩
        simp [hput]
  · intro env fn ct sz md fp hput
    simp only [process_and_store_file_fixed]
    cases sanitizeFilenameOpt fn with
    | none => exact ⟨_, rfl⟩
    | some preferred =>
      dsimp only
      cases resolveFinalKey env.store
          (pathJoin (sanitize_project_id md.research_project_id) fp) preferred with
      | none => exact ⟨_, rfl⟩
      | some fk =>
        dsimp only
        refine ⟨"S3Error: put_object failed", ?_⟩
        simp [hput]
  · intro env fn ct sz md fp row hrow
    rcases process_fixed_cases env fn ct sz md fp with hsame | ⟨fk, nrow, heq, hpath⟩
    · left
      rw [hsame] at hrow
      exact hrow
    · rw [heq] at hrow
      rcases List.mem_cons.mp hrow with rfl | hold
      · right
        rw [heq, hpath]
        exact List.mem_cons_self _ _
      · left
        exact hold

/-- Witness for C2 at a concrete failing object write. -/
theorem C2_witness :
    ∃ m, process_and_store_file ⟨["x"], [], false, true, 0, 0⟩ "f.txt" none 1
      ⟨"", none, none, none, none⟩ "" = (.raised m, ["x"], []) :=
  C2_object_write_precedes_catalog.1 ⟨["x"], [], false, true, 0, 0⟩ "f.txt" none 1
    ⟨"", none, none, none, none⟩ "" rfl

/-- C3: in the shipped code, once the object write succeeds the call to the
catalog writer itself raises `TypeError` (keyword `research_project_id`
against parameter `project_id`), so the ingestion RAISES instead of returning
a failed `IngestOutcome` — while the already-written object stays in the
store and the catalog is unchanged.  With the keyword slip repaired, a
catalog-write failure returns (never raises) an error outcome that still
carries the resolved key and the generated file id, and the object is kept. -/
theorem C3_catalog_failure_behavior (env : PipelineEnv) (fn : String)
    (ct : Option String) (sz : Nat) (md : UserMetadata) (fp : String)
    (preferred fk : String)
    (hput : env.putOk = true)
    (hs : sanitizeFilenameOpt fn = some preferred)
    (hr : resolveFinalKey env.store
      (pathJoin (sanitize_project_id md.research_project_id) fp) preferred = some fk) :
    process_and_store_file env fn ct sz md fp =
      (.raised "TypeError: unexpected keyword argument research_project_id",
        fk :: env.store, env.catalog) ∧
    (env.dbOk = false →
      process_and_store_file_fixed env fn ct sz md fp =
        (.returned ⟨"error", fn, fk, env.fileId, "Database operational error"⟩,
          fk :: env.store, env.catalog)) := by
  constructor
  · simp only [process_and_store_file]
    rw [hs]
    dsimp only
    rw [hr]
    dsimp only
    simp [hput]
  · intro hdb
    simp only [process_and_store_file_fixed]
    rw [hs]
    dsimp only
    rw [hr]
    dsimp only
    simp [hput, hdb]

/-- Witness for C3 at a concrete ingestion whose catalog write fails. -/
theorem C3_witness :
    process_and_store_file ⟨[], [], true, false, 7, 5⟩ "report.pdf" none 10
      ⟨"neuro-1", none, none, none, none⟩ "" =
      (.raised "TypeError: unexpected keyword argument research_project_id",
        ["neuro-1/report.pdf"], []) ∧
    process_and_store_file_fixed ⟨[], [], true, false, 7, 5⟩ "report.pdf" none 10
      ⟨"neuro-1", none, none, none, none⟩ "" =
      (.returned ⟨"error", "report.pdf", "neuro-1/report.pdf", 7,
        "Database operational error"⟩, ["neuro-1/report.pdf"], []) := by
  have h := C3_catalog_failure_behavior ⟨[], [], true, false, 7, 5⟩ "report.pdf" none 10
    ⟨"neuro-1", none, none, none, none⟩ "" "report.pdf" "neuro-1/report.pdf"
    rfl (by decide) (by decide)
  exact ⟨h.1, h.2 rfl⟩

/-! ## Claim C8: invalid `date_conducted` -/

/-- C8: an unparseable `date_conducted` never rejects the ingestion — the
repaired pipeline succeeds and stores the row with the date absent; but in
the pipeline as shipped NO row is ever stored, because the catalog call
raises `TypeError` (the keyword slip of C3), so `date_conducted` is never
persisted at all. -/
theorem C8_bad_date_stored_absent :
    parseDateYMD "not-a-date" = none ∧
    (∀ (env : PipelineEnv) (fn : String) (ct : Option String) (sz : Nat)
        (md : UserMetadata) (fp : String) (preferred fk : String) (s : String),
      md.date_conducted = some s → parseDateYMD s = none →
      env.putOk = true → env.dbOk = true →
      sanitizeFilenameOpt fn = some preferred →
      resolveFinalKey env.store
        (pathJoin (sanitize_project_id md.research_project_id) fp) preferred = some fk →
      (∃ row, process_and_store_file_fixed env fn ct sz md fp =
          (.returned ⟨"success", fn, fk, env.fileId, "Metadata stored successfully."⟩,
            fk :: env.store, row :: env.catalog) ∧ row.date_conducted = none) ∧
      process_and_store_file env fn ct sz md fp =
        (.raised "TypeError: unexpected keyword argument research_project_id",
          fk :: env.store, env.catalog)) := by
  refine ⟨by decide, ?_⟩
  intro env fn ct sz md fp preferred fk s hmd hparse hput hdb hs hr
  have hpd : parsedDate md.date_conducted = none := by
    rw [hmd]
    unfold parsedDate
    by_cases hse : s = ""
    · simp [hse]
    · simp [hse, hparse]
  constructor
  · refine ⟨⟨env.fileId, some md.research_project_id, fn, some (get_file_extension fn),
      some (contentTypeOrDefault ct), md.experiment_type, md.author,
      parsedDate md.date_conducted, sz, "raw-data", fk, env.now, md.custom_tags⟩, ?_, hpd⟩
    simp only [process_and_store_file_fixed]
    rw [hs]
    dsimp only
    rw [hr]
    dsimp only
    simp [hput, hdb]
  · simp only [process_and_store_file]
    rw [hs]
    dsimp only
    rw [hr]
    dsimp only
    simp [hput]

/-- Witness for C8 at a concrete ingestion with an unparseable date. -/
theorem C8_witness :
    (∃ row, process_and_store_file_fixed ⟨[], [], true, true, 3, 9⟩ "report.pdf" none 10
        ⟨"", none, none, some "not-a-date", none⟩ "" =
        (.returned ⟨"success", "report.pdf", "report.pdf", 3, "Metadata stored successfully."⟩,
          ["report.pdf"], row :: ([] : List CatalogRow)) ∧ row.date_conducted = none) ∧
    process_and_store_file ⟨[], [], true, true, 3, 9⟩ "report.pdf" none 10
        ⟨"", none, none, some "not-a-date", none⟩ "" =
      (.raised "TypeError: unexpected keyword argument research_project_id",
        ["report.pdf"], []) :=
  C8_bad_date_stored_absent.2 ⟨[], [], true, true, 3, 9⟩ "report.pdf" none 10
    ⟨"", none, none, some "not-a-date", none⟩ "" "report.pdf" "report.pdf" "not-a-date"
    rfl (by decide) rfl rfl (by decide) (by decide)

/-! ## Claim C10: folder-upload skip filter -/

theorem process_fixed_returns_filename (env : PipelineEnv) (fn : String)
    (ct : Option String) (sz : Nat) (md : UserMetadata) (fp : String)
    {o : IngestOutcome} {st' : List String} {ct' : List CatalogRow}
    (h : process_and_store_file_fixed env fn ct sz md fp = (.returned o, st', ct')) :
    o.original_filename = fn := by
  simp only [process_and_store_file_fixed] at h
  split at h
  · exact absurd h (by simp)
  · split at h
    · exact absurd h (by simp)
    · split at h
      · split at h
        · have h1 := congrArg (fun x => x.1) h
          dsimp only at h1
          injection h1 with h2
          rw [← h2]
        · have h1 := congrArg (fun x => x.1) h
          dsimp only at h1
          injection h1 with h2
          rw [← h2]
      · exact absurd h (by simp)

theorem C10_folder_counts_aux :
    ∀ (files : List ExtractedFile) (putOk dbOk : Bool) (now : Nat) (md : UserMetadata)
      (folderName : String) (nextId : Nat) (store : List String)
      (catalog : List CatalogRow) (outs : List IngestOutcome) (st : List String)
      (ctl : List CatalogRow),
      uploadFolderWith process_and_store_file_fixed putOk dbOk now md folderName files
        nextId store catalog = .ok (outs, st, ctl) →
      ∀ n : String, outs.countP (fun o => o.original_filename == n) =
        files.countP (fun f => keepFile f && (f.name == n)) := by
  intro files
  induction files with
  | nil =>
    intro putOk dbOk now md folderName nextId store catalog outs st ctl h n
    simp only [uploadFolderWith] at h
    injection h with h1
    injection h1 with h2 h3
    rw [← h2]
    simp
  | cons f fs ih =>
    intro putOk dbOk now md folderName nextId store catalog outs st ctl h n
    simp only [uploadFolderWith] at h
    by_cases hkeep : keepFile f = true
    · rw [if_pos hkeep] at h
      rcases hres : process_and_store_file_fixed ⟨store, catalog, putOk, dbOk, nextId, now⟩
          f.name none f.size md folderName with ⟨res, st2, ct2⟩
      rw [hres] at h
      cases res with
      | raised msg =>
        dsimp only at h
        exact absurd h (by simp)
      | returned o =>
        dsimp only at h
        cases hrec : uploadFolderWith process_and_store_file_fixed putOk dbOk now md
            folderName fs (nextId + 1) st2 ct2 with
        | error e =>
          rw [hrec] at h
          exact absurd h (by simp)
        | ok trip =>
          obtain ⟨os, st3, ct3⟩ := trip
          rw [hrec] at h
          injection h with h1
          injection h1 with h2 h3
          rw [← h2]
          rw [List.countP_cons, List.countP_cons]
          have hname : o.original_filename = f.name :=
            process_fixed_returns_filename _ _ _ _ _ _ hres
          rw [ih putOk dbOk now md folderName (nextId + 1) st2 ct2 os st3 ct3 hrec n]
          simp [hname, hkeep]
    · rw [if_neg hkeep] at h
      rw [ih putOk dbOk now md folderName nextId store catalog outs st ctl h n]
      rw [List.countP_cons]
      have hk : keepFile f = false := Bool.not_eq_true _ |>.mp hkeep
      simp [hk]

/-- C10: in the shipped code a kept regular file never produces an outcome
entry at all — its ingest call raises the `TypeError` of the catalog-writer
keyword slip and the whole batch aborts; over the slip-repaired pipeline the
returned results list contains exactly one outcome per kept regular file
(none for skipped ones), where the skip test is pathlib's `suffix == ".zip"`
(so a file named exactly `".zip"`, whose pathlib suffix is empty although its
name ends in `".zip"`, is NOT skipped) or a basename starting `__MACOSX`. -/
theorem C10_folder_skip_filter :
    create_upload_folder true true 0 ⟨"", none, none, none, none⟩ ""
      [⟨"data.txt", true, 4⟩] 1 [] [] =
      .error "TypeError: unexpected keyword argument research_project_id" ∧
    (∀ (files : List ExtractedFile) (putOk dbOk : Bool) (now : Nat) (md : UserMetadata)
        (folderName : String) (nextId : Nat) (store : List String)
        (catalog : List CatalogRow) (outs : List IngestOutcome) (st : List String)
        (ctl : List CatalogRow),
      uploadFolderWith process_and_store_file_fixed putOk dbOk now md folderName files
        nextId store catalog = .ok (outs, st, ctl) →
      ∀ n : String, outs.countP (fun o => o.original_filename == n) =
        files.countP (fun f => keepFile f && (f.name == n))) ∧
    (match create_upload_folder_fixed true true 0 ⟨"", none, none, none, none⟩ ""
        [⟨".zip", true, 1⟩] 1 [] [] with
      | .ok (outs, _, _) => outs.countP (fun o => o.original_filename == ".zip")
      | .error _ => 0) = 1 ∧
    strEndsWith ".zip" ".zip" = true := by
  refine ⟨rfl, C10_folder_counts_aux, by decide, by decide⟩

/-- Witness for C10 at a concrete batch (one kept file, one skipped). -/
theorem C10_witness :
    uploadFolderWith process_and_store_file_fixed true true 0 ⟨"", none, none, none, none⟩ ""
      [⟨"a.txt", true, 1⟩, ⟨"__MACOSXx", true, 1⟩] 1 [] [] =
      .ok ([⟨"success", "a.txt", "a.txt", 1, "Metadata stored successfully."⟩],
        ["a.txt"],
        [⟨1, some "", "a.txt", some "TXT", some "application/octet-stream", none, none,
          none, 1, "raw-data", "a.txt", 0, none⟩]) ∧
    ([(⟨"success", "a.txt", "a.txt", 1, "Metadata stored successfully."⟩ : IngestOutcome)]).countP
        (fun o => o.original_filename == "a.txt") =
      ([⟨"a.txt", true, 1⟩, ⟨"__MACOSXx", true, 1⟩] : List ExtractedFile).countP
        (fun f => keepFile f && (f.name == "a.txt")) :=
  ⟨rfl,
   C10_folder_skip_filter.2.1 [⟨"a.txt", true, 1⟩, ⟨"__MACOSXx", true, 1⟩] true true 0
     ⟨"", none, none, none, none⟩ "" 1 [] []
     [⟨"success", "a.txt", "a.txt", 1, "Metadata stored successfully."⟩] ["a.txt"]
     [⟨1, some "", "a.txt", some "TXT", some "application/octet-stream", none, none, none, 1,
       "raw-data", "a.txt", 0, none⟩] rfl "a.txt"⟩
